import Mathlib

/-
Verification of the AWS JSON header-dispatch router
(rust-runtime/aws-smithy-http-server/src/proto/aws_json/router.rs)
as a shallow embedding in Lean 4.

HTTP methods compare by name, URIs are compared as whole strings
(the source writes `request.uri() != "/"`), header values are raw byte
sequences that may fail text conversion, and the route table is the
adaptive small-map `TinyMap` keyed by strings.
-/

namespace AwsJson

/-- HTTP method, compared by its name exactly as the http crate compares
`Method` values against string literals. -/
def Method := String

instance : DecidableEq Method := fun a b => String.decEq a b

/-- The POST method. -/
def Method.POST : Method := "POST"

/-- The GET method. -/
def Method.GET : Method := "GET"

/-- A raw header value: an arbitrary byte sequence, possibly not valid
visible-ASCII text, mirroring http::HeaderValue. -/
structure HeaderValue where
  bytes : List Nat
deriving DecidableEq

/-- The opaque error produced when a header value fails text conversion,
mirroring http::header::ToStrError (which exposes no fields). -/
structure ToStrError where
deriving DecidableEq

/-- A byte that `HeaderValue::to_str` accepts: visible ASCII, space, or
horizontal tab, as in the http crate. -/
def visibleByte (b : Nat) : Bool := (32 ≤ b && b < 127) || b == 9

/-- Text conversion of a header value, mirroring `HeaderValue::to_str`:
succeeds exactly when every byte is visible ASCII (or space / tab), in
which case the value is the corresponding character string. -/
def HeaderValue.toStr (v : HeaderValue) : Except ToStrError String :=
  if v.bytes.all visibleByte then
    Except.ok (String.mk (v.bytes.map Char.ofNat))
  else
    Except.error ToStrError.mk

/-- Builds a header value holding the bytes of an ASCII string. -/
def HeaderValue.ofString (s : String) : HeaderValue :=
  HeaderValue.mk (s.data.map Char.toNat)

/-- Request metadata handed to the router by the transport: the URI (as the
string the source compares against "/"), the method, and the header map as
an association list from (lowercased) header name to raw value. -/
structure Request where
  uri : String
  method : Method
  headers : List (String × HeaderValue)

/-- First-match lookup of a header by name, mirroring HeaderMap::get. -/
def findHeader : List (String × HeaderValue) → String → Option HeaderValue
  | [], _ => none
  | (n, v) :: t, name => if n = name then some v else findHeader t name

/-- Header lookup on a request, mirroring `request.headers().get(name)`. -/
def Request.getHeader (r : Request) (name : String) : Option HeaderValue :=
  findHeader r.headers name

/-- An AWS JSON routing error (the `Error` enum of the source). -/
inductive Error where
  /-- Relative URI was not "/". -/
  | NotRootUrl
  /-- Method was not POST. -/
  | MethodNotAllowed
  /-- Missing the x-amz-target header. -/
  | MissingHeader
  /-- Unable to parse header into UTF-8. -/
  | InvalidHeader (cause : ToStrError)
  /-- Operation not found. -/
  | NotFound
deriving DecidableEq

/-- The cutoff at which `TinyMap` switches from a linear-scan vector to a
hash-indexed map (ROUTE_CUTOFF in the source). -/
def ROUTE_CUTOFF : Nat := 15

/-- Modelled from the spec: the Adaptive Keyed Collection
`crate::routing::tiny_map::TinyMap`, whose source file is not part of this
snapshot. Per the spec it keeps two mutually exclusive representations: an
ordered sequence of (key, value) pairs while the entry count is at most the
fixed cutoff, and a hash-indexed mapping once the count exceeds it. The
hash-indexed mapping is embedded as a lookup function together with the
list of keys (for iteration). -/
inductive TinyMap (V : Type) where
  | vec (entries : List (String × V))
  | hash (find : String → Option V) (keys : List String)

/-- Linear-scan lookup in an association list (first match wins). -/
def getAssoc {V : Type} : List (String × V) → String → Option V
  | [], _ => none
  | (k, v) :: t, q => if k = q then some v else getAssoc t q

/-- Modelled from the spec: last-write-wins insertion into the ordered pair
sequence — a duplicate key overwrites the earlier entry in place, a fresh
key is appended. -/
def assocInsert {V : Type} : List (String × V) → String → V → List (String × V)
  | [], k, v => [(k, v)]
  | (k0, v0) :: t, k, v =>
      if k0 = k then (k, v) :: t else (k0, v0) :: assocInsert t k v

/-- Collects a pair sequence into the deduplicated ordered sequence,
inserting in iteration order with last-write-wins overwrites. -/
def dedupPairs {V : Type} (pairs : List (String × V)) : List (String × V) :=
  pairs.foldl (fun acc p => assocInsert acc p.1 p.2) []

/-- Modelled from the spec: the hash-indexed representation built from the
pair sequence; a later binding of a key shadows an earlier one, which is the
overwrite behaviour of hash-map insertion. -/
def hashOfPairs {V : Type} (pairs : List (String × V)) : String → Option V :=
  pairs.foldl (fun acc p => fun q => if p.1 = q then some p.2 else acc q)
    (fun _ => none)

/-- Modelled from the spec: `TinyMap`'s FromIterator construction — the
representation is chosen once, at construction time, from the final entry
count relative to the cutoff. -/
def TinyMap.fromPairs {V : Type} (pairs : List (String × V)) : TinyMap V :=
  if (dedupPairs pairs).length ≤ ROUTE_CUTOFF then
    TinyMap.vec (dedupPairs pairs)
  else
    TinyMap.hash (hashOfPairs pairs) ((dedupPairs pairs).map Prod.fst)

/-- Modelled from the spec: `TinyMap::get` — linear scan in the small
representation, indexed lookup in the hash representation. -/
def TinyMap.get {V : Type} : TinyMap V → String → Option V
  | TinyMap.vec es, q => getAssoc es q
  | TinyMap.hash f _, q => f q

/-- Modelled from the spec: `TinyMap::into_iter`, yielding the stored
(key, value) pairs; in the hash representation pairs are produced from the
stored key list. -/
def TinyMap.toList {V : Type} : TinyMap V → List (String × V)
  | TinyMap.vec es => es
  | TinyMap.hash f ks => ks.filterMap (fun k => (f k).map (fun v => (k, v)))

/-- A type-erased route, wrapping a handler behind one uniform type
(`Route::new` in the source). -/
structure Route (S : Type) where
  inner : S

/-- Type erasure of a handler, mirroring `Route::new`. -/
def Route.new {S : Type} (s : S) : Route S := Route.mk s

/-- The AWS JSON router: a `TinyMap` from operation name to handler. -/
structure AwsJsonRouter (S : Type) where
  routes : TinyMap S

/-- The FromIterator construction of the router: the pair sequence is
passed through unchanged (the source maps the identity closure over it)
and collected into the `TinyMap`. -/
def AwsJsonRouter.fromIter {S : Type} (pairs : List (String × S)) :
    AwsJsonRouter S :=
  AwsJsonRouter.mk (TinyMap.fromPairs (pairs.map (fun p => (p.1, p.2))))

/-- `AwsJsonRouter::layer`: applies the transformation to every route,
re-collecting the mapped pairs into a new router. The tower `Layer` is
embedded as the function it applies to each stored service. -/
def AwsJsonRouter.layer {S T : Type} (r : AwsJsonRouter S) (f : S → T) :
    AwsJsonRouter T :=
  AwsJsonRouter.mk
    (TinyMap.fromPairs (r.routes.toList.map (fun p => (p.1, f p.2))))

/-- `AwsJsonRouter::boxed`: applies `Route::new` type erasure to every
route, re-collecting into a new router. -/
def AwsJsonRouter.boxed {S : Type} (r : AwsJsonRouter S) :
    AwsJsonRouter (Route S) :=
  AwsJsonRouter.mk
    (TinyMap.fromPairs (r.routes.toList.map (fun p => (p.1, Route.new p.2))))

/-- `AwsJsonRouter::match_route`: the URI must be "/", the method must be
POST, the x-amz-target header must be present and convert to text, and the
text must name a registered route, whose handler is then cloned and
returned. Each check returns its error immediately when it fails. -/
def AwsJsonRouter.matchRoute {S : Type} (router : AwsJsonRouter S)
    (request : Request) : Except Error S :=
  if request.uri ≠ "/" then
    Except.error Error.NotRootUrl
  else if request.method ≠ Method.POST then
    Except.error Error.MethodNotAllowed
  else
    match request.getHeader "x-amz-target" with
    | none => Except.error Error.MissingHeader
    | some target =>
      match target.toStr with
      | Except.error e => Except.error (Error.InvalidHeader e)
      | Except.ok target =>
        match router.routes.get target with
        | none => Except.error Error.NotFound
        | some route => Except.ok route

/-- The explicit state-passing form of `match_route`: the source takes the
router by shared reference and `TinyMap` has no interior mutability, so the
post-state router is the input router unchanged. -/
def AwsJsonRouter.matchRouteSt {S : Type} (router : AwsJsonRouter S)
    (request : Request) : Except Error S × AwsJsonRouter S :=
  (router.matchRoute request, router)

/-- The match keys of a router, read off its route table. -/
def AwsJsonRouter.keys {S : Type} (r : AwsJsonRouter S) : List String :=
  r.routes.toList.map Prod.fst

/-- Lookup after a last-write-wins insertion: the inserted key now maps to
the inserted value, every other key is unchanged. -/
theorem getAssoc_assocInsert {V : Type} (es : List (String × V)) (k q : String)
    (v : V) :
    getAssoc (assocInsert es k v) q = if k = q then some v else getAssoc es q := by
  induction es with
  | nil => simp [assocInsert, getAssoc]
  | cons p t ih =>
    obtain ⟨k0, v0⟩ := p
    simp only [assocInsert]
    by_cases h0 : k0 = k
    · subst h0
      by_cases hq : k0 = q
      · subst hq
        simp [getAssoc]
      · simp [getAssoc, hq]
    · rw [if_neg h0]
      by_cases hq : k0 = q
      · subst hq
        have hk : ¬ k = k0 := fun h => h0 h.symm
        simp [getAssoc, hk]
      · simp [getAssoc, hq, ih]

/-- The fold building the deduplicated sequence and the fold building the
hash lookup compute the same mapping, relative to matching initial states. -/
theorem getAssoc_foldl {V : Type} (pairs : List (String × V))
    (es : List (String × V)) (q : String) :
    getAssoc (pairs.foldl (fun acc p => assocInsert acc p.1 p.2) es) q
      = pairs.foldl (fun acc p => fun r => if p.1 = r then some p.2 else acc r)
          (fun r => getAssoc es r) q := by
  induction pairs generalizing es with
  | nil => rfl
  | cons p t ih =>
    simp only [List.foldl_cons]
    rw [ih]
    have hfun : (fun r => getAssoc (assocInsert es p.1 p.2) r)
        = fun r => if p.1 = r then some p.2 else getAssoc es r := by
      funext r
      exact getAssoc_assocInsert es p.1 r p.2
    rw [hfun]

/-- Linear scan over the deduplicated sequence agrees with the hash lookup
built from the same pair sequence: the two representations are one mapping. -/
theorem getAssoc_dedup {V : Type} (pairs : List (String × V)) (q : String) :
    getAssoc (dedupPairs pairs) q = hashOfPairs pairs q := by
  unfold dedupPairs hashOfPairs
  rw [getAssoc_foldl]
  have hinit : (fun r => getAssoc ([] : List (String × V)) r)
      = fun _ => (none : Option V) := rfl
  rw [hinit]

/-- Lookup in a constructed `TinyMap` is the hash mapping of the input
pairs, whichever representation was chosen at construction. -/
theorem TinyMap.get_fromPairs {V : Type} (pairs : List (String × V))
    (q : String) :
    (TinyMap.fromPairs pairs).get q = hashOfPairs pairs q := by
  unfold TinyMap.fromPairs
  by_cases h : (dedupPairs pairs).length ≤ ROUTE_CUTOFF
  · rw [if_pos h]
    exact getAssoc_dedup pairs q
  · rw [if_neg h]
    rfl

/-- Appending one pair to the input shadows exactly that pair's key in the
hash mapping. -/
theorem hashOfPairs_append {V : Type} (l : List (String × V)) (p : String × V)
    (q : String) :
    hashOfPairs (l ++ [p]) q = if p.1 = q then some p.2 else hashOfPairs l q := by
  unfold hashOfPairs
  rw [List.foldl_append]
  rfl

/-- The hash mapping of a pair sequence is linear scan of its reversal:
the latest binding of a key wins. -/
theorem hashOfPairs_eq_reverse {V : Type} (pairs : List (String × V))
    (q : String) :
    hashOfPairs pairs q = getAssoc pairs.reverse q := by
  induction pairs using List.reverseRecOn with
  | nil => rfl
  | append_singleton l p ih =>
    rw [hashOfPairs_append, List.reverse_append]
    simp only [List.reverse_cons, List.reverse_nil, List.nil_append,
      List.singleton_append, getAssoc]
    rw [ih]
    rfl

/-- Inserting a fresh key appends the pair at the end of the sequence. -/
theorem assocInsert_of_not_mem {V : Type} (es : List (String × V)) (k : String)
    (v : V) (h : k ∉ es.map Prod.fst) :
    assocInsert es k v = es ++ [(k, v)] := by
  induction es with
  | nil => rfl
  | cons p t ih =>
    obtain ⟨k0, v0⟩ := p
    simp only [List.map_cons, List.mem_cons] at h
    push_neg at h
    obtain ⟨h1, h2⟩ := h
    have h1n : ¬ k0 = k := fun hh => h1 hh.symm
    simp only [assocInsert, if_neg h1n, ih h2, List.cons_append]

/-- Folding last-write-wins insertions of pairwise-fresh keys over an
accumulator appends the pairs in order. -/
theorem foldl_insert_of_nodup {V : Type} (l : List (String × V)) :
    ∀ acc : List (String × V), ((acc ++ l).map Prod.fst).Nodup →
      l.foldl (fun a p => assocInsert a p.1 p.2) acc = acc ++ l := by
  induction l with
  | nil => intro acc _; simp
  | cons p t ih =>
    intro acc h
    have hk : p.1 ∉ acc.map Prod.fst := by
      intro hmem
      rw [List.map_append] at h
      have hdisj := (List.nodup_append.mp h).2.2
      exact hdisj hmem (by simp)
    rw [List.foldl_cons, assocInsert_of_not_mem acc p.1 p.2 hk]
    have hre : (acc ++ [p]) ++ t = acc ++ p :: t := by simp
    rw [ih (acc ++ [p]) (by rw [hre]; exact h), hre]

/-- Deduplication leaves a sequence with pairwise distinct keys unchanged. -/
theorem dedupPairs_of_nodup {V : Type} (l : List (String × V))
    (h : (l.map Prod.fst).Nodup) : dedupPairs l = l := by
  have := foldl_insert_of_nodup l [] (by simpa using h)
  simpa [dedupPairs] using this

/-- Key membership after a last-write-wins insertion. -/
theorem mem_keys_assocInsert {V : Type} (es : List (String × V)) (k q : String)
    (v : V) :
    q ∈ (assocInsert es k v).map Prod.fst ↔ q ∈ es.map Prod.fst ∨ q = k := by
  induction es with
  | nil => simp [assocInsert]
  | cons p t ih =>
    obtain ⟨k0, v0⟩ := p
    simp only [assocInsert]
    by_cases h0 : k0 = k
    · subst h0
      rw [if_pos rfl]
      simp only [List.map_cons, List.mem_cons]
      tauto
    · rw [if_neg h0]
      simp only [List.map_cons, List.mem_cons, ih]
      tauto

/-- Last-write-wins insertion preserves distinctness of keys. -/
theorem nodup_keys_assocInsert {V : Type} (es : List (String × V)) (k : String)
    (v : V) (h : (es.map Prod.fst).Nodup) :
    ((assocInsert es k v).map Prod.fst).Nodup := by
  induction es with
  | nil => simp [assocInsert]
  | cons p t ih =>
    obtain ⟨k0, v0⟩ := p
    simp only [List.map_cons, List.nodup_cons] at h
    obtain ⟨hni, hnd⟩ := h
    simp only [assocInsert]
    by_cases h0 : k0 = k
    · subst h0
      rw [if_pos rfl]
      simp only [List.map_cons, List.nodup_cons]
      exact ⟨hni, hnd⟩
    · rw [if_neg h0]
      simp only [List.map_cons, List.nodup_cons]
      refine ⟨?_, ih hnd⟩
      rw [mem_keys_assocInsert]
      rintro (h | h)
      · exact hni h
      · exact h0 h

/-- The deduplicated sequence always has pairwise distinct keys. -/
theorem nodup_keys_dedupPairs {V : Type} (pairs : List (String × V)) :
    ((dedupPairs pairs).map Prod.fst).Nodup := by
  have hgen : ∀ acc : List (String × V), (acc.map Prod.fst).Nodup →
      ((pairs.foldl (fun a p => assocInsert a p.1 p.2) acc).map Prod.fst).Nodup := by
    induction pairs with
    | nil => intro acc h; exact h
    | cons p t ih =>
      intro acc h
      rw [List.foldl_cons]
      exact ih _ (nodup_keys_assocInsert acc p.1 p.2 h)
  exact hgen [] (by simp)

/-- In a sequence with pairwise distinct keys, linear scan finds exactly the
value stored with a key. -/
theorem getAssoc_of_mem_nodup {V : Type} (es : List (String × V)) (k : String)
    (v : V) (hnd : (es.map Prod.fst).Nodup) (hmem : (k, v) ∈ es) :
    getAssoc es k = some v := by
  induction es with
  | nil => cases hmem
  | cons p t ih =>
    obtain ⟨k0, v0⟩ := p
    simp only [List.map_cons, List.nodup_cons] at hnd
    obtain ⟨hni, hnd⟩ := hnd
    rcases List.mem_cons.mp hmem with heq | hmem1
    · rw [Prod.mk.injEq] at heq
      obtain ⟨h1, h2⟩ := heq
      subst h1
      subst h2
      simp [getAssoc]
    · have hkt : k ∈ t.map Prod.fst :=
        List.mem_map.mpr ⟨(k, v), hmem1, rfl⟩
      have h0 : ¬ k0 = k := fun hh => hni (hh ▸ hkt)
      simp only [getAssoc, if_neg h0]
      exact ih hnd hmem1

/-- Iterating the key list of a distinct-key sequence through its own scan
lookup reproduces the sequence. -/
theorem filterMap_keys_getAssoc {V : Type} (es : List (String × V))
    (hnd : (es.map Prod.fst).Nodup) :
    (es.map Prod.fst).filterMap
        (fun k => (getAssoc es k).map (fun v => (k, v))) = es := by
  induction es with
  | nil => rfl
  | cons p t ih =>
    obtain ⟨k0, v0⟩ := p
    simp only [List.map_cons, List.nodup_cons] at hnd
    obtain ⟨hni, hnd⟩ := hnd
    simp only [List.map_cons, List.filterMap_cons]
    have hhead : getAssoc ((k0, v0) :: t) k0 = some v0 := by
      simp [getAssoc]
    rw [hhead]
    simp only [Option.map_some']
    have htail : (t.map Prod.fst).filterMap
        (fun k => (getAssoc ((k0, v0) :: t) k).map (fun v => (k, v)))
        = (t.map Prod.fst).filterMap
            (fun k => (getAssoc t k).map (fun v => (k, v))) := by
      refine List.filterMap_congr ?_
      intro x hx
      have hx0 : ¬ k0 = x := fun hh => hni (hh ▸ hx)
      simp [getAssoc, if_neg hx0]
    rw [htail, ih hnd]

/-- Iterating a constructed `TinyMap` yields the deduplicated input pairs,
in either representation. -/
theorem toList_fromPairs {V : Type} (pairs : List (String × V)) :
    (TinyMap.fromPairs pairs).toList = dedupPairs pairs := by
  unfold TinyMap.fromPairs
  by_cases h : (dedupPairs pairs).length ≤ ROUTE_CUTOFF
  · rw [if_pos h]
    rfl
  · rw [if_neg h]
    show ((dedupPairs pairs).map Prod.fst).filterMap
        (fun k => (hashOfPairs pairs k).map (fun v => (k, v))) = dedupPairs pairs
    have hcongr : ((dedupPairs pairs).map Prod.fst).filterMap
        (fun k => (hashOfPairs pairs k).map (fun v => (k, v)))
        = ((dedupPairs pairs).map Prod.fst).filterMap
            (fun k => (getAssoc (dedupPairs pairs) k).map (fun v => (k, v))) := by
      refine List.filterMap_congr ?_
      intro x _
      rw [getAssoc_dedup]
    rw [hcongr]
    exact filterMap_keys_getAssoc _ (nodup_keys_dedupPairs pairs)

/-- Mapping a function over the values of a sequence commutes with scan
lookup. -/
theorem getAssoc_map_snd {V W : Type} (f : V → W) (es : List (String × V))
    (q : String) :
    getAssoc (es.map (fun p => (p.1, f p.2))) q = (getAssoc es q).map f := by
  induction es with
  | nil => rfl
  | cons p t ih =>
    obtain ⟨k0, v0⟩ := p
    by_cases h : k0 = q <;> simp [getAssoc, h, ih]

/-- Mapping a function over the values of a sequence keeps its keys. -/
theorem keys_map_snd {V W : Type} (f : V → W) (es : List (String × V)) :
    (es.map (fun p => (p.1, f p.2))).map Prod.fst = es.map Prod.fst := by
  induction es with
  | nil => rfl
  | cons p t ih => simp [ih]

/-- The identity reshaping of pairs in the FromIterator implementation. -/
theorem map_pair_eta {α β : Type} (l : List (α × β)) :
    l.map (fun p => (p.1, p.2)) = l := by
  induction l with
  | nil => rfl
  | cons p t ih => simp [ih]

/-- Lookup in a freshly constructed router is scan lookup in the
deduplicated pair sequence. -/
theorem get_fromIter {S : Type} (pairs : List (String × S)) (q : String) :
    (AwsJsonRouter.fromIter pairs).routes.get q = getAssoc (dedupPairs pairs) q := by
  unfold AwsJsonRouter.fromIter
  rw [map_pair_eta, TinyMap.get_fromPairs, getAssoc_dedup]

/-- Layering a freshly constructed router keeps its match keys. -/
theorem keys_layer {S T : Type} (pairs : List (String × S)) (f : S → T) :
    ((AwsJsonRouter.fromIter pairs).layer f).keys
      = (AwsJsonRouter.fromIter pairs).keys := by
  unfold AwsJsonRouter.keys AwsJsonRouter.layer AwsJsonRouter.fromIter
  rw [map_pair_eta, toList_fromPairs pairs, toList_fromPairs]
  have hnod : (((dedupPairs pairs).map (fun p => (p.1, f p.2))).map Prod.fst).Nodup := by
    rw [keys_map_snd]
    exact nodup_keys_dedupPairs pairs
  rw [dedupPairs_of_nodup _ hnod, keys_map_snd]

/-- Layering a freshly constructed router transforms each stored handler by
the layered function. -/
theorem get_layer {S T : Type} (pairs : List (String × S)) (f : S → T)
    (k : String) :
    ((AwsJsonRouter.fromIter pairs).layer f).routes.get k
      = ((AwsJsonRouter.fromIter pairs).routes.get k).map f := by
  unfold AwsJsonRouter.layer AwsJsonRouter.fromIter
  rw [map_pair_eta]
  show (TinyMap.fromPairs
      ((TinyMap.fromPairs pairs).toList.map (fun p => (p.1, f p.2)))).get k
    = ((TinyMap.fromPairs pairs).get k).map f
  rw [toList_fromPairs]
  have hnod : (((dedupPairs pairs).map (fun p => (p.1, f p.2))).map Prod.fst).Nodup := by
    rw [keys_map_snd]
    exact nodup_keys_dedupPairs pairs
  rw [TinyMap.get_fromPairs, ← getAssoc_dedup, dedupPairs_of_nodup _ hnod,
    getAssoc_map_snd, TinyMap.get_fromPairs, ← getAssoc_dedup]

/-- Text conversion of a header value made of visible-ASCII characters
recovers the original string. -/
theorem toStr_ofString (s : String) (h : ∀ c ∈ s.data, visibleByte c.toNat) :
    (HeaderValue.ofString s).toStr = Except.ok s := by
  unfold HeaderValue.toStr HeaderValue.ofString
  have hall : (s.data.map Char.toNat).all visibleByte = true := by
    rw [List.all_eq_true]
    intro b hb
    obtain ⟨c, hc, rfl⟩ := List.mem_map.mp hb
    exact h c hc
  rw [hall]
  simp only [if_true]
  rw [List.map_map]
  have hmap : s.data.map (Char.ofNat ∘ Char.toNat) = s.data := by
    have hfun : (Char.ofNat ∘ Char.toNat) = fun c : Char => c := by
      funext c
      exact Char.ofNat_toNat c
    rw [hfun, List.map_id']
  rw [hmap]

/-- On a root-path POST request, `match_route` reduces to the header lookup,
the text conversion, and the table lookup. -/
theorem matchRoute_root_post {S : Type} (r : AwsJsonRouter S) (req : Request)
    (huri : req.uri = "/") (hm : req.method = Method.POST) :
    r.matchRoute req
      = match req.getHeader "x-amz-target" with
        | none => Except.error Error.MissingHeader
        | some target =>
          match target.toStr with
          | Except.error e => Except.error (Error.InvalidHeader e)
          | Except.ok t =>
            match r.routes.get t with
            | none => Except.error Error.NotFound
            | some route => Except.ok route := by
  unfold AwsJsonRouter.matchRoute
  rw [huri, hm]
  rw [if_neg (fun h => h rfl), if_neg (fun h => h rfl)]

/-- On a root-path POST request whose dispatch header is present,
`match_route` reduces to the text conversion and the table lookup. -/
theorem matchRoute_some {S : Type} (r : AwsJsonRouter S) (req : Request)
    (hv : HeaderValue) (huri : req.uri = "/") (hm : req.method = Method.POST)
    (hsome : req.getHeader "x-amz-target" = some hv) :
    r.matchRoute req
      = match hv.toStr with
        | Except.error e => Except.error (Error.InvalidHeader e)
        | Except.ok t =>
          match r.routes.get t with
          | none => Except.error Error.NotFound
          | some route => Except.ok route := by
  rw [matchRoute_root_post r req huri hm, hsome]

/-- On a root-path POST request whose dispatch header converts to the text
s, `match_route` reduces to the table lookup of s. -/
theorem matchRoute_key {S : Type} (r : AwsJsonRouter S) (req : Request)
    (hv : HeaderValue) (s : String) (huri : req.uri = "/")
    (hm : req.method = Method.POST)
    (hsome : req.getHeader "x-amz-target" = some hv)
    (hok : hv.toStr = Except.ok s) :
    r.matchRoute req
      = match r.routes.get s with
        | none => Except.error Error.NotFound
        | some route => Except.ok route := by
  rw [matchRoute_some r req hv huri hm hsome, hok]

/-- A root path carrying a query string differs from the bare root path. -/
theorem root_ne_query (q : String) : ("/?" ++ q : String) ≠ "/" := by
  intro h
  have hl := congrArg String.length h
  rw [String.length_append] at hl
  have h2 : ("/?" : String).length = 2 := rfl
  have h1 : ("/" : String).length = 1 := rfl
  rw [h2, h1] at hl
  omega

/-- The concrete router of the spec's scenario, with handlers 1 and 2. -/
def exampleRouter : AwsJsonRouter Nat :=
  AwsJsonRouter.fromIter [("Op1", 1), ("Op2", 2)]

/-- C1: on a root-path POST request the remaining checks run in order —
header presence, then text conversion, then table lookup — and the first
failing check alone determines the error: a missing dispatch header yields
MissingHeader, a present but non-text header yields InvalidHeader carrying
the parse cause, and a valid but unregistered header yields NotFound. -/
theorem C1_check_order {S : Type} (r : AwsJsonRouter S) (req : Request)
    (huri : req.uri = "/") (hm : req.method = Method.POST) :
    (req.getHeader "x-amz-target" = none →
        r.matchRoute req = Except.error Error.MissingHeader)
    ∧ (∀ hv e, req.getHeader "x-amz-target" = some hv →
        hv.toStr = Except.error e →
        r.matchRoute req = Except.error (Error.InvalidHeader e))
    ∧ (∀ hv s, req.getHeader "x-amz-target" = some hv →
        hv.toStr = Except.ok s → r.routes.get s = none →
        r.matchRoute req = Except.error Error.NotFound) := by
  refine ⟨?_, ?_, ?_⟩
  · intro hnone
    rw [matchRoute_root_post r req huri hm, hnone]
  · intro hv e hsome herr
    rw [matchRoute_some r req hv huri hm hsome, herr]
  · intro hv s hsome hok hnot
    rw [matchRoute_key r req hv s huri hm hsome hok, hnot]

/-- C1 witness: a concrete root-path POST request with no headers is
rejected with MissingHeader. -/
theorem C1_check_order_witness :
    (AwsJsonRouter.fromIter [("A", (0 : Nat))]).matchRoute
      { uri := "/", method := Method.POST, headers := [] }
      = Except.error Error.MissingHeader :=
  (C1_check_order _ _ rfl rfl).1 rfl

/-- C2: a router built from pairs with pairwise distinct keys dispatches a
root-path POST request whose dispatch header holds key K to exactly the
handler associated with K at construction time. -/
theorem C2_dispatch_registered {S : Type} (pairs : List (String × S))
    (K : String) (v : S) (hnd : (pairs.map Prod.fst).Nodup)
    (hmem : (K, v) ∈ pairs) (hvis : ∀ c ∈ K.data, visibleByte c.toNat) :
    (AwsJsonRouter.fromIter pairs).matchRoute
      { uri := "/", method := Method.POST,
        headers := [("x-amz-target", HeaderValue.ofString K)] }
      = Except.ok v := by
  have hget : Request.getHeader
      { uri := "/", method := Method.POST,
        headers := [("x-amz-target", HeaderValue.ofString K)] } "x-amz-target"
      = some (HeaderValue.ofString K) := rfl
  rw [matchRoute_key _ _ _ K rfl rfl hget (toStr_ofString K hvis),
    get_fromIter, dedupPairs_of_nodup pairs hnd,
    getAssoc_of_mem_nodup pairs K v hnd hmem]

/-- C2 witness: the one-entry router dispatches its key to its handler. -/
theorem C2_dispatch_registered_witness :
    (AwsJsonRouter.fromIter [("Op1", (1 : Nat))]).matchRoute
      { uri := "/", method := Method.POST,
        headers := [("x-amz-target", HeaderValue.ofString "Op1")] }
      = Except.ok 1 :=
  C2_dispatch_registered [("Op1", 1)] "Op1" 1 (by decide) (by decide) (by decide)

/-- C3: layering preserves the router's match keys and transforms each
stored handler by the layered function, and the type-erasing boxed
operation preserves the keys (wrapping each handler in a Route). -/
theorem C3_layer_structure {S T : Type} (pairs : List (String × S))
    (f : S → T) (k : String) :
    ((AwsJsonRouter.fromIter pairs).layer f).keys
        = (AwsJsonRouter.fromIter pairs).keys
    ∧ ((AwsJsonRouter.fromIter pairs).layer f).routes.get k
        = ((AwsJsonRouter.fromIter pairs).routes.get k).map f
    ∧ (AwsJsonRouter.fromIter pairs).boxed.keys
        = (AwsJsonRouter.fromIter pairs).keys
    ∧ (AwsJsonRouter.fromIter pairs).boxed.routes.get k
        = ((AwsJsonRouter.fromIter pairs).routes.get k).map Route.new :=
  ⟨keys_layer pairs f, get_layer pairs f k,
    keys_layer pairs Route.new, get_layer pairs Route.new k⟩

/-- C4: lookup in a constructed TinyMap agrees with both the linear-scan
representation and the hash-indexed representation, whichever of the two
was chosen at construction from the entry count. -/
theorem C4_representation_equivalence {V : Type} (pairs : List (String × V))
    (k : String) :
    (TinyMap.fromPairs pairs).get k = (TinyMap.vec (dedupPairs pairs)).get k
    ∧ (TinyMap.fromPairs pairs).get k
        = (TinyMap.hash (hashOfPairs pairs)
            ((dedupPairs pairs).map Prod.fst)).get k := by
  constructor
  · rw [TinyMap.get_fromPairs]
    show hashOfPairs pairs k = getAssoc (dedupPairs pairs) k
    exact (getAssoc_dedup pairs k).symm
  · rw [TinyMap.get_fromPairs]
    rfl

/-- C5: construction has last-write-wins semantics — lookup in the built
router equals a scan of the reversed input, so the last pair with a given
key wins; the same holds in the scan and in the hash representation. -/
theorem C5_last_write_wins {S : Type} (pairs : List (String × S)) (k : String) :
    (AwsJsonRouter.fromIter pairs).routes.get k = getAssoc pairs.reverse k
    ∧ (TinyMap.vec (dedupPairs pairs)).get k = getAssoc pairs.reverse k
    ∧ (TinyMap.hash (hashOfPairs pairs)
        ((dedupPairs pairs).map Prod.fst)).get k = getAssoc pairs.reverse k := by
  refine ⟨?_, ?_, ?_⟩
  · rw [get_fromIter, getAssoc_dedup, hashOfPairs_eq_reverse]
  · show getAssoc (dedupPairs pairs) k = getAssoc pairs.reverse k
    rw [getAssoc_dedup, hashOfPairs_eq_reverse]
  · show hashOfPairs pairs k = getAssoc pairs.reverse k
    exact hashOfPairs_eq_reverse pairs k

/-- C6 as stated is false: the dispatch header is named x-amz-target, so a
request carrying the key under the name x-target lacks the dispatch header
and is rejected with MissingHeader instead of dispatching to handler 1. -/
theorem C6_counterexample :
    exampleRouter.matchRoute
      { uri := "/", method := Method.POST,
        headers := [("x-target", HeaderValue.ofString "Op1")] }
      = Except.error Error.MissingHeader
    ∧ exampleRouter.matchRoute
      { uri := "/", method := Method.POST,
        headers := [("x-target", HeaderValue.ofString "Op1")] }
      ≠ Except.ok 1 := by
  refine ⟨rfl, ?_⟩
  intro h
  have he : exampleRouter.matchRoute
      { uri := "/", method := Method.POST,
        headers := [("x-target", HeaderValue.ofString "Op1")] }
      = Except.error Error.MissingHeader := rfl
  rw [he] at h
  exact Except.noConfusion h

/-- C6 (amended): with the dispatch header named x-amz-target, the router
built from [(Op1, 1), (Op2, 2)] dispatches Op1 to handler 1, yields
NotFound for Op3, MethodNotAllowed for GET, and NotRootUrl for /other. -/
theorem C6_concrete_scenario :
    exampleRouter.matchRoute
      { uri := "/", method := Method.POST,
        headers := [("x-amz-target", HeaderValue.ofString "Op1")] }
      = Except.ok 1
    ∧ exampleRouter.matchRoute
      { uri := "/", method := Method.POST,
        headers := [("x-amz-target", HeaderValue.ofString "Op3")] }
      = Except.error Error.NotFound
    ∧ exampleRouter.matchRoute
      { uri := "/", method := Method.GET,
        headers := [("x-amz-target", HeaderValue.ofString "Op1")] }
      = Except.error Error.MethodNotAllowed
    ∧ exampleRouter.matchRoute
      { uri := "/other", method := Method.POST,
        headers := [("x-amz-target", HeaderValue.ofString "Op1")] }
      = Except.error Error.NotRootUrl :=
  ⟨rfl, rfl, rfl, rfl⟩

/-- C7: every request whose URI is not the root path "/" is rejected with
NotRootUrl, for every router, method and header map. -/
theorem C7_not_root {S : Type} (r : AwsJsonRouter S) (req : Request)
    (h : req.uri ≠ "/") :
    r.matchRoute req = Except.error Error.NotRootUrl := by
  unfold AwsJsonRouter.matchRoute
  rw [if_pos h]

/-- C7 witness: a request for /other is rejected with NotRootUrl. -/
theorem C7_not_root_witness :
    (AwsJsonRouter.fromIter ([] : List (String × Nat))).matchRoute
      { uri := "/other", method := Method.POST, headers := [] }
      = Except.error Error.NotRootUrl :=
  C7_not_root _ _ (by decide)

/-- C8: match_route is total — every invocation returns either a handler or
a typed error — and a present dispatch header whose bytes are not valid
text yields InvalidHeader rather than any abrupt failure. -/
theorem C8_total_typed_errors {S : Type} (r : AwsJsonRouter S) (req : Request) :
    ((∃ s, r.matchRoute req = Except.ok s)
      ∨ (∃ e, r.matchRoute req = Except.error e))
    ∧ (req.uri = "/" → req.method = Method.POST →
        ∀ hv, req.getHeader "x-amz-target" = some hv →
          hv.bytes.all visibleByte = false →
          r.matchRoute req = Except.error (Error.InvalidHeader ToStrError.mk)) := by
  constructor
  · cases hres : r.matchRoute req with
    | ok s => exact Or.inl ⟨s, rfl⟩
    | error e => exact Or.inr ⟨e, rfl⟩
  · intro huri hm hv hsome hbad
    have htoStr : hv.toStr = Except.error ToStrError.mk := by
      unfold HeaderValue.toStr
      rw [hbad]
      simp
    rw [matchRoute_some r req hv huri hm hsome, htoStr]

/-- C8 witness: a header holding the single byte 200 is rejected with
InvalidHeader. -/
theorem C8_total_typed_errors_witness :
    (AwsJsonRouter.fromIter [("A", (0 : Nat))]).matchRoute
      { uri := "/", method := Method.POST,
        headers := [("x-amz-target", HeaderValue.mk [200])] }
      = Except.error (Error.InvalidHeader ToStrError.mk) :=
  (C8_total_typed_errors _ _).2 rfl rfl _ rfl (by decide)

/-- C9: match_route is a deterministic, side-effect-free function of the
request and the route table: equal requests give equal results, and the
state-passing form leaves the router unchanged while returning exactly the
pure result. -/
theorem C9_deterministic_pure {S : Type} (r : AwsJsonRouter S)
    (req1 req2 : Request) (h : req1 = req2) :
    r.matchRoute req1 = r.matchRoute req2
    ∧ (r.matchRouteSt req1).2 = r
    ∧ (r.matchRouteSt req1).1 = r.matchRoute req1 := by
  subst h
  exact ⟨rfl, rfl, rfl⟩

/-- C9 witness: two invocations on the same concrete request agree. -/
theorem C9_deterministic_pure_witness :
    (AwsJsonRouter.fromIter [("A", (0 : Nat))]).matchRoute
      { uri := "/", method := Method.POST, headers := [] }
      = (AwsJsonRouter.fromIter [("A", (0 : Nat))]).matchRoute
        { uri := "/", method := Method.POST, headers := [] } :=
  (C9_deterministic_pure _ _ _ rfl).1

/-- C10: the root check compares the whole URI string against "/", so a
POST request whose URI is "/?" followed by any query string is rejected
with NotRootUrl and never reaches header lookup. -/
theorem C10_query_string_rejected {S : Type} (r : AwsJsonRouter S)
    (q : String) (hs : List (String × HeaderValue)) :
    r.matchRoute { uri := "/?" ++ q, method := Method.POST, headers := hs }
      = Except.error Error.NotRootUrl := by
  unfold AwsJsonRouter.matchRoute
  rw [if_pos (root_ne_query q)]

end AwsJson
